import Mathlib

/-
Shallow embedding of the frlg-render repository (ssnover/frlg-render).

The embedding follows src/palette.rs, src/map.rs and src/tileset.rs.
Machine integers (u8/u16/u32/usize) are modelled as Nat; byte buffers as
List Nat whose elements are intended below 256; images as functions from
pixel coordinates to pixel values (ImageBuffer::new initialises every
pixel to zero, and each Rust loop writes disjoint pixels, so the
functional translation is exact on the written region).  Rust panics
(slice indexing out of bounds, usize subtraction underflow, unwrap,
assert) are modelled as None / Except.error; where a panic is provably
unreachable the read is modelled with getD and the impossibility is
proved as a theorem.
-/

namespace FRLG

/-- RGB color triple, one (u8, u8, u8) entry of a palette. -/
abbrev Color := Nat × Nat × Nat

/-- RGBA pixel as produced by `Tileset::get_tile_image` (src/tileset.rs). -/
abbrev Rgba := Nat × Nat × Nat × Nat

/-- Embeds `Palette` (src/palette.rs): a fixed array of 16 RGB triples,
modelled as a list (the array type guarantees length 16; theorems carry
that invariant as a hypothesis where they need it). -/
structure Palette where
  inner : List Color
deriving DecidableEq

/-- Embeds `Palette::get` (src/palette.rs lines 10-12).  The Rust code
indexes the fixed array and panics out of bounds; the panic is modelled
as `none`. -/
def Palette.get (p : Palette) (entry : Nat) : Option Color :=
  p.inner.get? entry

/-- The palette value `[(0, 0, 0); 16]` that `parse_palette` starts from. -/
def zeroPalette : Palette :=
  ⟨List.replicate 16 (0, 0, 0)⟩

/-- Worker for `splitWs`: walks the characters once, accumulating the
current token in reverse in `cur`, and emits a token at each whitespace
boundary and at the end. -/
def splitWsGo (cur : List Char) : List Char → List (List Char)
  | [] => if cur = [] then [] else [cur.reverse]
  | c :: rest =>
    if c.isWhitespace then
      if cur = [] then splitWsGo [] rest
      else cur.reverse :: splitWsGo [] rest
    else splitWsGo (c :: cur) rest

/-- Splits a character list on runs of whitespace, dropping empty tokens;
embeds `str::split_ascii_whitespace` as used in `parse_palette`
(src/palette.rs line 63). -/
def splitWs (s : List Char) : List (List Char) :=
  splitWsGo [] s

/-- Embeds `str::parse::<u8>` as used in `parse_palette`
(src/palette.rs line 64): an optional leading plus sign, at least one
digit, all digits, and a value that fits in a byte; anything else is an
error (the Rust code unwraps it, i.e. panics, modelled `none`). -/
def parseU8 (s : List Char) : Option Nat :=
  let s2 := match s with
    | '+' :: rest => rest
    | _ => s
  if s2 = [] then none
  else if s2.all (fun c => c.isDigit) then
    let n := s2.foldl (fun acc c => acc * 10 + (c.toNat - 48)) 0
    if n < 256 then some n else none
  else none

/-- One color line of a JASC-PAL file (src/palette.rs lines 60-68): split
on ASCII whitespace, parse every token as u8 (unwrap panics on failure),
then assert exactly three values.  Both panics are modelled as `none`. -/
def parseColorLine (l : List Char) : Option Color :=
  match (splitWs l).mapM parseU8 with
  | some [r, g, b] => some (r, g, b)
  | _ => none

/-- The 16-iteration color loop of `parse_palette` (src/palette.rs lines
59-69): `lines.next().unwrap()` panics when lines run out, and a bad
line panics; both are modelled as `none`. -/
def parseColors (n : Nat) (lines : List (List Char)) : Option (List Color) :=
  match n, lines with
  | 0, _ => some []
  | _ + 1, [] => none
  | n + 1, l :: rest =>
    match parseColorLine l with
    | none => none
    | some c => (parseColors n rest).map (fun cs => c :: cs)

/-- Embeds `parse_palette` (src/palette.rs lines 51-75) at the level of
the file's lines (each line a character list).  When the three header
lines match the JASC-PAL tags the 16 color lines are parsed (panics
modelled as `none`); otherwise the function falls through the `if let`
and returns the untouched all-zero palette with no error. -/
def parse_palette (lines : List (List Char)) : Option Palette :=
  match lines with
  | h1 :: h2 :: h3 :: rest =>
    if h1 = "JASC-PAL".toList ∧ h2 = "0100".toList ∧ h3 = "16".toList then
      (parseColors 16 rest).map (fun cs => ⟨cs⟩)
    else some zeroPalette
  | _ => some zeroPalette

/-- Embeds `TileData` (src/tileset.rs lines 60-66). -/
structure TileData where
  tile_id : Nat
  flip_horizontal : Bool
  flip_vertical : Bool
  palette_number : Nat
deriving DecidableEq

/-- Embeds `impl From<u16> for TileData` (src/tileset.rs lines 212-222). -/
def TileData.fromWord (value : Nat) : TileData :=
  { tile_id := value &&& 0x3ff
    flip_horizontal := value &&& 0x400 != 0
    flip_vertical := value &&& 0x800 != 0
    palette_number := (value &&& 0xf000) >>> 12 }

/-- Follows the spec wording for re-packing a TileRef into its 16-bit
word: `tile_id` in bits 0-9, `flip_horizontal` in bit 10,
`flip_vertical` in bit 11, `palette_number` in bits 12-15.  The source
has no encoder; this definition exists to state the decode/encode
round-trip claim. -/
def TileData.encodeWord (td : TileData) : Nat :=
  td.tile_id + (if td.flip_horizontal then 1024 else 0) +
    (if td.flip_vertical then 2048 else 0) + td.palette_number * 4096

/-- Embeds `LayerType` (src/tileset.rs lines 34-39). -/
inductive LayerType where
  | MiddleTop
  | BottomMiddle
  | BottomTop
deriving DecidableEq

/-- Embeds `MetatileAttributes` (src/tileset.rs lines 29-32). -/
structure MetatileAttributes where
  layer_type : LayerType
deriving DecidableEq

/-- Embeds `impl From<u32> for MetatileAttributes` (src/tileset.rs lines
41-58). -/
def MetatileAttributes.fromWord (value : Nat) : MetatileAttributes :=
  let v := (value >>> 29) &&& 0b011
  let layer_type :=
    if v = 0 then LayerType.MiddleTop
    else if v = 1 then LayerType.BottomMiddle
    else if v = 2 then LayerType.BottomTop
    else LayerType.MiddleTop
  ⟨layer_type⟩

/-- Embeds `Metatile` (src/tileset.rs lines 23-27); the `[TileData; 8]`
array is modelled as a list. -/
structure Metatile where
  tiles : List TileData
  attributes : MetatileAttributes
deriving DecidableEq

/-- Embeds `TilesetImage` (src/tileset.rs lines 267-272): the packed
4-bit-per-pixel buffer plus the atlas dimensions in tiles. -/
structure TilesetImage where
  tileset_data : List Nat
  tile_width : Nat
  tile_height : Nat
deriving DecidableEq

/-- Embeds `TilesetImage::get_tile` (src/tileset.rs lines 275-309).  A
present tile is an 8x8 grid of 4-bit gray values, modelled as a function
of (col, row); the buffer read `self.tileset_data[offset]` is modelled
with getD (the PNG parser guarantees the buffer covers the atlas). -/
def TilesetImage.get_tile (a : TilesetImage) (tile_id : Nat) :
    Option (Nat → Nat → Nat) :=
  if tile_id < a.tile_width * a.tile_height then
    some (fun col row =>
      let tile_x := tile_id % a.tile_width
      let tile_y := tile_id / a.tile_width
      let tileset_pixel_x := tile_x * 8 + col
      let tileset_pixel_y := tile_y * 8 + row
      let offset := (tileset_pixel_y * (a.tile_width * 8) + tileset_pixel_x) / 2
      let data := a.tileset_data.getD offset 0
      if col % 2 = 0 then data >>> 4 else data &&& 0xf)
  else none

/-- Embeds `Tileset` (src/tileset.rs lines 16-21). -/
structure Tileset where
  metatiles : List Metatile
  tile_image : TilesetImage
  palettes : List Palette
deriving DecidableEq

/-- One pixel of the body of the loop of `Tileset::get_tile_image`
(src/tileset.rs lines 195-207): flip the source coordinates, look the
4-bit value up in the selected palette, and mark value 0 transparent
through the alpha channel.  The two panicking indexings
(`self.palettes[palette_number]` and `Palette::get` out of range) are
modelled with getD defaults; their unreachability is proved separately. -/
def Tileset.renderTilePixel (ts : Tileset) (palette_number : Nat)
    (flip_vertical flip_horizontal : Bool) (gray_tile : Nat → Nat → Nat)
    (col row : Nat) : Rgba :=
  let tile_row := if !flip_vertical then row else 7 - row
  let tile_col := if !flip_horizontal then col else 7 - col
  let idx := gray_tile tile_col tile_row
  let palette_value := ((ts.palettes.getD palette_number zeroPalette).get idx).getD (0, 0, 0)
  let alpha := if idx = 0 then 0 else 255
  (palette_value.1, palette_value.2.1, palette_value.2.2, alpha)

/-- Embeds `Tileset::get_tile_image` (src/tileset.rs lines 185-209). -/
def Tileset.get_tile_image (ts : Tileset) (tile_id : Nat)
    (flip_vertical flip_horizontal : Bool) (palette_number : Nat)
    (tileset_image : TilesetImage) : Option (Nat → Nat → Rgba) :=
  (tileset_image.get_tile tile_id).map (fun gray_tile =>
    fun col row =>
      ts.renderTilePixel palette_number flip_vertical flip_horizontal gray_tile col row)

/-- Embeds `Tileset::get_metatile` (src/tileset.rs lines 181-183); the
panicking `Vec` indexing is modelled as `none`. -/
def Tileset.get_metatile (ts : Tileset) (metatile_id : Nat) : Option Metatile :=
  ts.metatiles.get? metatile_id

/-- Embeds `LayoutTileset` (src/tileset.rs lines 10-14). -/
structure LayoutTileset where
  primary : Tileset
  secondary : Tileset
deriving DecidableEq

/-- The metatile routing of `LayoutTileset::get_metatile_image`
(src/tileset.rs lines 85-95).  The secondary branch computes
`metatile_id - 640` on usize: below 640 the subtraction underflows
(panic in debug builds, a wrap far beyond the vector length and an
index panic in release builds), so both outcomes are modelled as
`none`, as is the index panic when `metatile_id - 640` is out of the
secondary vector's range. -/
def LayoutTileset.route_metatile (lt : LayoutTileset) (metatile_id : Nat) :
    Option Metatile :=
  let end_of_primary := lt.primary.metatiles.length
  let end_of_secondary := lt.secondary.metatiles.length + end_of_primary
  if metatile_id < end_of_primary then
    lt.primary.get_metatile metatile_id
  else if end_of_primary ≤ metatile_id ∧ metatile_id < end_of_secondary then
    if 640 ≤ metatile_id then lt.secondary.get_metatile (metatile_id - 640)
    else none
  else none

/-- The default TileData value, standing for the unreachable
out-of-range read of `metatile.tiles[tile_idx]` (tile_idx is always
below 8 at the call sites). -/
def defaultTileData : TileData :=
  ⟨0, false, false, 0⟩

/-- The per-slot tile rendering of `LayoutTileset::get_metatile_image`
(src/tileset.rs lines 106-123): a raw tile id below 640 is rendered
from the primary tileset under the unchanged id, otherwise from the
secondary tileset under id minus 640. -/
def LayoutTileset.slotTileImage (lt : LayoutTileset) (mt : Metatile)
    (tile_idx : Nat) : Option (Nat → Nat → Rgba) :=
  let td := mt.tiles.getD tile_idx defaultTileData
  if td.tile_id < 640 then
    lt.primary.get_tile_image td.tile_id td.flip_vertical td.flip_horizontal
      td.palette_number lt.primary.tile_image
  else
    lt.secondary.get_tile_image (td.tile_id - 640) td.flip_vertical
      td.flip_horizontal td.palette_number lt.secondary.tile_image

/-- The gray (palette-index) tile consulted for one slot of a metatile:
the atlas lookup underlying `slotTileImage`, split by the same 640
boundary (src/tileset.rs lines 106-123 together with lines 193). -/
def LayoutTileset.slotGray (lt : LayoutTileset) (mt : Metatile)
    (tile_idx : Nat) : Option (Nat → Nat → Nat) :=
  let td := mt.tiles.getD tile_idx defaultTileData
  if td.tile_id < 640 then
    lt.primary.tile_image.get_tile td.tile_id
  else
    lt.secondary.tile_image.get_tile (td.tile_id - 640)

/-- The write of one tile of one layer into the 16x16 metatile image
(src/tileset.rs lines 125-146): inside the 8x8 destination region a
top-layer source pixel with alpha 0 is skipped, every other source
pixel's RGB triple is copied; a failed tile lookup writes nothing. -/
def LayoutTileset.writeSlot (lt : LayoutTileset) (mt : Metatile)
    (img : Nat → Nat → Color) (layer col row : Nat) : Nat → Nat → Color :=
  let tile_idx := layer * 4 + row * 2 + col
  match lt.slotTileImage mt tile_idx with
  | none => img
  | some tile_image =>
    fun x y =>
      if 8 * col ≤ x ∧ x < 8 * col + 8 ∧ 8 * row ≤ y ∧ y < 8 * row + 8 then
        let pixel_col := x - 8 * col
        let pixel_row := y - 8 * row
        let p := tile_image pixel_col pixel_row
        if layer = 1 ∧ p.2.2.2 = 0 then img x y
        else (p.1, p.2.1, p.2.2.1)
      else img x y

/-- The slot order of the nested loops of `get_metatile_image`
(src/tileset.rs lines 100-102): layer outermost, then col, then row. -/
def slotOrder : List (Nat × Nat × Nat) :=
  [(0, 0, 0), (0, 0, 1), (0, 1, 0), (0, 1, 1),
   (1, 0, 0), (1, 0, 1), (1, 1, 0), (1, 1, 1)]

/-- The full 16x16 composite of one metatile (src/tileset.rs lines
98-149), starting from the all-black `ImageBuffer::new(16, 16)` and
folding the eight slot writes in source order. -/
def LayoutTileset.compositeMetatile (lt : LayoutTileset) (mt : Metatile) :
    Nat → Nat → Color :=
  slotOrder.foldl (fun img lcr => lt.writeSlot mt img lcr.1 lcr.2.1 lcr.2.2)
    (fun _ _ => (0, 0, 0))

/-- Follows the spec wording for rendering only the bottom layer of a
metatile: the same fold restricted to the four layer-0 slots.  Used as
the comparison image for the transparency fall-through claim. -/
def LayoutTileset.compositeBottomOnly (lt : LayoutTileset) (mt : Metatile) :
    Nat → Nat → Color :=
  [(0, 0, 0), (0, 0, 1), (0, 1, 0), (0, 1, 1)].foldl
    (fun img lcr => lt.writeSlot mt img lcr.1 lcr.2.1 lcr.2.2)
    (fun _ _ => (0, 0, 0))

/-- Embeds `LayoutTileset::get_metatile_image` (src/tileset.rs lines
84-155): route the metatile id, then composite the eight tiles. -/
def LayoutTileset.get_metatile_image (lt : LayoutTileset) (metatile_id : Nat) :
    Option (Nat → Nat → Color) :=
  (lt.route_metatile metatile_id).map (fun mt => lt.compositeMetatile mt)

/-- Decodes a byte list as consecutive little-endian 16-bit words, as
the `read_u16::<LittleEndian>` loops do (src/map.rs, src/tileset.rs). -/
def readU16LE (bytes : List Nat) : List Nat :=
  match bytes with
  | b0 :: b1 :: rest => (b0 + 256 * b1) :: readU16LE rest
  | _ => []

/-- Embeds the loop of `parse_metatile_files` (src/tileset.rs lines
245-262): for each 16-byte metatile record, first read one 4-byte
little-endian attribute word (running out of attribute bytes is a read
error propagated by `?`), then decode the eight 16-bit tile words. -/
def parseMetatileChunks : List Nat → List Nat → Except Unit (List Metatile)
  | [], _ => .ok []
  | b0 :: b1 :: b2 :: b3 :: b4 :: b5 :: b6 :: b7 ::
      b8 :: b9 :: b10 :: b11 :: b12 :: b13 :: b14 :: b15 :: rest,
    a0 :: a1 :: a2 :: a3 :: arest =>
    let attr := MetatileAttributes.fromWord
      (a0 + 256 * a1 + 65536 * a2 + 16777216 * a3)
    let tiles := (readU16LE
      [b0, b1, b2, b3, b4, b5, b6, b7, b8, b9, b10, b11, b12, b13, b14, b15]).map
      TileData.fromWord
    (parseMetatileChunks rest arest).map (fun ms => ⟨tiles, attr⟩ :: ms)
  | _, _ => .error ()

/-- Embeds `parse_metatile_files` (src/tileset.rs lines 224-265) on the
two files' byte contents: both length checks, then the chunk loop. -/
def parse_metatile_files (meta attrs : List Nat) : Except Unit (List Metatile) :=
  if meta.length % 16 ≠ 0 then .error ()
  else if attrs.length % 4 ≠ 0 then .error ()
  else parseMetatileChunks meta attrs

/-- Embeds `MapMetatileData` (src/map.rs lines 52-57). -/
structure MapMetatileData where
  metatile_id : Nat
  collision_data : Nat
  elevation : Nat
deriving DecidableEq

/-- Embeds `impl From<u16> for MapMetatileData` (src/map.rs lines
100-108). -/
def MapMetatileData.fromWord (value : Nat) : MapMetatileData :=
  { metatile_id := value &&& 0x3ff
    collision_data := (value &&& 0xc00) >>> 10
    elevation := (value &&& 0xf000) >>> 12 }

/-- Embeds `MapData` (src/map.rs lines 47-50). -/
structure MapData where
  metatiles : List MapMetatileData
  borders : List MapMetatileData
deriving DecidableEq

/-- Embeds `MapData::from_files` (src/map.rs lines 59-98) on the two
files' byte contents: reject odd lengths, then decode every
little-endian 16-bit word of each file. -/
def MapData.from_files (map_bytes border_bytes : List Nat) :
    Except Unit MapData :=
  if map_bytes.length % 2 = 1 ∨ border_bytes.length % 2 = 1 then .error ()
  else .ok ⟨(readU16LE map_bytes).map MapMetatileData.fromWord,
            (readU16LE border_bytes).map MapMetatileData.fromWord⟩

/-- Embeds `Layout` (src/map.rs lines 7-11). -/
structure Layout where
  height : Nat
  width : Nat
  map_data : MapData
deriving DecidableEq

/-- Embeds `Layout::load` (src/map.rs lines 14-25). -/
def Layout.load (width height : Nat) (map_bytes border_bytes : List Nat) :
    Except Unit Layout :=
  (MapData.from_files map_bytes border_bytes).map
    (fun md => ⟨height, width, md⟩)

/-- Embeds `Layout::tile_idx` (src/map.rs lines 27-34). -/
def Layout.tile_idx (l : Layout) (row col : Nat) : Option Nat :=
  if row ≥ l.height ∨ col ≥ l.width then none
  else some (row * l.width + col)

/-- Embeds `Layout::get_metatile` (src/map.rs lines 36-39); the
panicking `Vec` indexing inside the map is modelled as `none`. -/
def Layout.get_metatile (l : Layout) (row col : Nat) : Option MapMetatileData :=
  (l.tile_idx row col).bind (fun idx => l.map_data.metatiles.get? idx)

end FRLG

namespace FRLG

/-- Example metatile whose eight tile slots all reference primary tile 0. -/
def exMetatile : Metatile :=
  ⟨List.replicate 8 defaultTileData, ⟨LayerType.MiddleTop⟩⟩

/-- Example metatile whose eight tile slots all reference tile id 700,
which the 640 boundary sends to the secondary tileset as tile 60. -/
def exMetatileHi : Metatile :=
  ⟨List.replicate 8 ⟨700, false, false, 0⟩, ⟨LayerType.MiddleTop⟩⟩

/-- Example metatile whose eight slots reference primary tile 1, which is
out of range of the 1x1 example atlas, so every slot lookup fails. -/
def exMetatileOob : Metatile :=
  ⟨List.replicate 8 ⟨1, false, false, 0⟩, ⟨LayerType.MiddleTop⟩⟩

/-- Example tileset: one metatile, a 1x1-tile all-zero atlas, one palette. -/
def exTileset : Tileset := ⟨[exMetatile], ⟨[], 1, 1⟩, [zeroPalette]⟩

/-- Example layout tileset with one primary and one secondary metatile. -/
def exLayoutTileset : LayoutTileset := ⟨exTileset, exTileset⟩

/-- Example 2x1-tile atlas backed by the bytes 0..63. -/
def exAtlas : TilesetImage := ⟨List.range 64, 2, 1⟩

/-- Masking with a shifted mask then shifting right equals shifting right
then masking. -/
theorem and_mask_shift (v m k : Nat) : (v &&& (m <<< k)) >>> k = (v >>> k) &&& m := by
  apply Nat.eq_of_testBit_eq
  intro i
  simp [Nat.testBit_shiftRight, Nat.testBit_and, Nat.testBit_shiftLeft]

/-- Masking with a single bit expressed through division and remainder. -/
theorem and_two_pow_eq (v k : Nat) : v &&& 2 ^ k = v / 2 ^ k % 2 * 2 ^ k := by
  have h1 := Nat.and_two_pow v k
  have h2 := @Nat.testBit_to_div_mod k v
  rcases h3 : v.testBit k <;> rw [h3] at h1 h2 <;> simp at h1 h2
  · have h4 : v / 2 ^ k % 2 = 0 := by omega
    rw [h1, h4, Nat.zero_mul]
  · rw [h1, h2, Nat.one_mul]

/-- The 10-bit mask 0x3ff as a remainder. -/
theorem and_1023 (v : Nat) : v &&& 1023 = v % 1024 := by
  have := Nat.and_pow_two_sub_one_eq_mod v 10
  norm_num at this
  exact this

/-- The low-nibble mask 0xf as a remainder. -/
theorem and_15 (v : Nat) : v &&& 15 = v % 16 := by
  have := Nat.and_pow_two_sub_one_eq_mod v 4
  norm_num at this
  exact this

/-- The high-nibble shift as a division. -/
theorem shr_4 (v : Nat) : v >>> 4 = v / 16 := by
  have := Nat.shiftRight_eq_div_pow v 4
  norm_num at this
  exact this

/-- Bit 10 mask through division and remainder. -/
theorem and_1024 (v : Nat) : v &&& 1024 = v / 1024 % 2 * 1024 := by
  have := and_two_pow_eq v 10
  norm_num at this
  exact this

/-- Bit 11 mask through division and remainder. -/
theorem and_2048 (v : Nat) : v &&& 2048 = v / 2048 % 2 * 2048 := by
  have := and_two_pow_eq v 11
  norm_num at this
  exact this

/-- Bits 12-15 extracted by mask and shift, through division and
remainder. -/
theorem and_f000_shr (v : Nat) : (v &&& 0xf000) >>> 12 = v / 4096 % 16 := by
  have h1 : (0xf000 : Nat) = 15 <<< 12 := by decide
  rw [h1, and_mask_shift]
  have h2 := Nat.and_pow_two_sub_one_eq_mod (v >>> 12) 4
  have h3 := Nat.shiftRight_eq_div_pow v 12
  norm_num at h2 h3
  omega

/-- Bits 10-11 extracted by mask and shift, through division and
remainder. -/
theorem and_c00_shr (v : Nat) : (v &&& 0xc00) >>> 10 = v / 1024 % 4 := by
  have h1 : (0xc00 : Nat) = 3 <<< 10 := by decide
  rw [h1, and_mask_shift]
  have h2 := Nat.and_pow_two_sub_one_eq_mod (v >>> 10) 2
  have h3 := Nat.shiftRight_eq_div_pow v 10
  norm_num at h2 h3
  omega

/-- The flip-horizontal test of `TileData::from` as an arithmetic test. -/
theorem bit10_bool (v : Nat) : (v &&& 0x400 != 0) = decide (v / 1024 % 2 = 1) := by
  rw [show (0x400 : Nat) = 1024 from rfl, and_1024 v]
  rcases Nat.mod_two_eq_zero_or_one (v / 1024) with h | h <;> rw [h] <;> simp

/-- The flip-vertical test of `TileData::from` as an arithmetic test. -/
theorem bit11_bool (v : Nat) : (v &&& 0x800 != 0) = decide (v / 2048 % 2 = 1) := by
  rw [show (0x800 : Nat) = 2048 from rfl, and_2048 v]
  rcases Nat.mod_two_eq_zero_or_one (v / 2048) with h | h <;> rw [h] <;> simp

/-- Bit 10 of a Nat through division and remainder. -/
theorem testBit_10 (v : Nat) : v.testBit 10 = decide (v / 1024 % 2 = 1) := by
  have := @Nat.testBit_to_div_mod 10 v
  norm_num at this
  exact this

/-- Bit 11 of a Nat through division and remainder. -/
theorem testBit_11 (v : Nat) : v.testBit 11 = decide (v / 2048 % 2 = 1) := by
  have := @Nat.testBit_to_div_mod 11 v
  norm_num at this
  exact this

/-- Reading a byte buffer whose members are bytes yields a byte, also at
out-of-range offsets where the default 0 is returned. -/
theorem getD_lt_256 (l : List Nat) (hl : ∀ b ∈ l, b < 256) (off : Nat) :
    l.getD off 0 < 256 := by
  have e : l.getD off 0 = (l.get? off).getD 0 := rfl
  rw [e]
  rcases h2 : l.get? off with _ | b
  · simp
  · simp only [Option.getD_some]
    exact hl _ (List.get?_mem h2)

end FRLG

namespace FRLG

/-- Helper for C3: the 16-line color loop fails exactly when fewer than
16 lines remain or one of the first 16 lines is bad. -/
theorem parseColors_eq_none_iff (n : Nat) :
    ∀ lines : List (List Char), parseColors n lines = none ↔
      ¬(n ≤ lines.length ∧ ∀ l ∈ lines.take n, parseColorLine l ≠ none) := by
  induction n with
  | zero =>
    intro lines
    simp [parseColors]
  | succ n ih =>
    intro lines
    cases lines with
    | nil =>
      simp [parseColors]
    | cons l rest =>
      simp only [parseColors]
      cases hl : parseColorLine l with
      | none =>
        simp only [List.take_succ_cons]
        constructor
        · intro _ hc
          exact hc.2 l (List.mem_cons_self l _) hl
        · intro _
          trivial
      | some c =>
        rw [Option.map_eq_none', ih rest]
        simp only [List.take_succ_cons, List.length_cons, List.mem_cons]
        constructor
        · intro hmain hc
          apply hmain
          exact ⟨by omega, fun x hx => hc.2 x (Or.inr hx)⟩
        · intro hmain hc
          apply hmain
          refine ⟨by omega, fun x hx => ?_⟩
          rcases hx with rfl | hx
          · rw [hl]
            simp
          · exact hc.2 x hx

/-- Helper for C9: a list of at least 16 elements splits into 16 heads
and a tail. -/
theorem exists_cons16 (l : List Nat) (h : 16 ≤ l.length) :
    ∃ b0 b1 b2 b3 b4 b5 b6 b7 b8 b9 b10 b11 b12 b13 b14 b15 rest,
      l = b0 :: b1 :: b2 :: b3 :: b4 :: b5 :: b6 :: b7 :: b8 :: b9 ::
        b10 :: b11 :: b12 :: b13 :: b14 :: b15 :: rest := by
  rcases l with _ | ⟨b0, l⟩
  · simp at h
  rcases l with _ | ⟨b1, l⟩
  · simp at h
  rcases l with _ | ⟨b2, l⟩
  · simp at h
  rcases l with _ | ⟨b3, l⟩
  · simp at h
  rcases l with _ | ⟨b4, l⟩
  · simp at h
  rcases l with _ | ⟨b5, l⟩
  · simp at h
  rcases l with _ | ⟨b6, l⟩
  · simp at h
  rcases l with _ | ⟨b7, l⟩
  · simp at h
  rcases l with _ | ⟨b8, l⟩
  · simp at h
  rcases l with _ | ⟨b9, l⟩
  · simp at h
  rcases l with _ | ⟨b10, l⟩
  · simp at h
  rcases l with _ | ⟨b11, l⟩
  · simp at h
  rcases l with _ | ⟨b12, l⟩
  · simp at h
  rcases l with _ | ⟨b13, l⟩
  · simp at h
  rcases l with _ | ⟨b14, l⟩
  · simp at h
  rcases l with _ | ⟨b15, l⟩
  · simp at h
  exact ⟨b0, b1, b2, b3, b4, b5, b6, b7, b8, b9, b10, b11, b12, b13, b14, b15,
    l, rfl⟩

/-- Helper for C9: the chunk loop errors exactly when attribute records
run short, and otherwise yields one metatile per 16 metatile bytes. -/
theorem parseMetatileChunks_spec (meta attrs : List Nat)
    (hm : meta.length % 16 = 0) (ha : attrs.length % 4 = 0) :
    (attrs.length / 4 < meta.length / 16 →
      parseMetatileChunks meta attrs = .error ()) ∧
    (meta.length / 16 ≤ attrs.length / 4 →
      ∃ mts, parseMetatileChunks meta attrs = .ok mts ∧
        mts.length = meta.length / 16) := by
  induction meta, attrs using parseMetatileChunks.induct
  case case1 attrs =>
    constructor
    · intro h
      simp at h
    · intro _
      exact ⟨[], rfl, by simp⟩
  case case2 b0 b1 b2 b3 b4 b5 b6 b7 b8 b9 b10 b11 b12 b13 b14 b15 rest
      a0 a1 a2 a3 arest ih =>
    simp only [List.length_cons] at hm ha
    have hm2 : rest.length % 16 = 0 := by omega
    have ha2 : arest.length % 4 = 0 := by omega
    obtain ⟨ih1, ih2⟩ := ih hm2 ha2
    constructor
    · intro hlt
      simp only [List.length_cons] at hlt
      have hlt2 : arest.length / 4 < rest.length / 16 := by omega
      simp only [parseMetatileChunks, ih1 hlt2]
      rfl
    · intro hle
      simp only [List.length_cons] at hle
      have hle2 : rest.length / 16 ≤ arest.length / 4 := by omega
      obtain ⟨mts, hmts, hlenm⟩ := ih2 hle2
      refine ⟨⟨(readU16LE
        [b0, b1, b2, b3, b4, b5, b6, b7, b8, b9, b10, b11, b12, b13, b14, b15]).map
        TileData.fromWord,
        MetatileAttributes.fromWord
          (a0 + 256 * a1 + 65536 * a2 + 16777216 * a3)⟩ :: mts, ?_, ?_⟩
      · simp only [parseMetatileChunks, hmts]
        rfl
      · simp only [List.length_cons]
        omega
  case case3 =>
    rename_i t attrs hne hnomatch
    have ht0 : t.length ≠ 0 := fun h0 => hne (List.length_eq_zero.mp h0)
    have h16 : 16 ≤ t.length := by omega
    obtain ⟨b0, b1, b2, b3, b4, b5, b6, b7, b8, b9, b10, b11, b12, b13, b14,
      b15, rest, rfl⟩ := exists_cons16 t h16
    rcases attrs with _ | ⟨a0, attrs⟩
    · constructor
      · intro _
        rfl
      · intro hle
        simp only [List.length_cons, List.length_nil] at hle
        omega
    · have ha4 : 4 ≤ (a0 :: attrs).length := by
        simp only [List.length_cons] at ha ⊢
        omega
      rcases attrs with _ | ⟨a1, attrs⟩
      · simp at ha4
      rcases attrs with _ | ⟨a2, attrs⟩
      · simp at ha4
      rcases attrs with _ | ⟨a3, attrs⟩
      · simp at ha4
      exact (hnomatch b0 b1 b2 b3 b4 b5 b6 b7 b8 b9 b10 b11 b12 b13 b14 b15
        rest a0 a1 a2 a3 attrs rfl rfl).elim

/-- Helper for C8: the little-endian 16-bit decoding reads byte 2i as the
low byte and byte 2i+1 as the high byte of word i. -/
theorem readU16LE_get? (bytes : List Nat) :
    ∀ i, 2 * i + 1 < bytes.length →
      (readU16LE bytes).get? i =
        some (bytes.getD (2 * i) 0 + 256 * bytes.getD (2 * i + 1) 0) := by
  intro i
  induction i generalizing bytes with
  | zero =>
    intro h
    rcases bytes with _ | ⟨b0, _ | ⟨b1, rest⟩⟩
    · simp at h
    · simp at h
    · rfl
  | succ i ih =>
    intro h
    rcases bytes with _ | ⟨b0, _ | ⟨b1, rest⟩⟩
    · simp at h
    · simp at h
    · have h2 : 2 * i + 1 < rest.length := by
        simp only [List.length_cons] at h
        omega
      have e0 : (readU16LE (b0 :: b1 :: rest)).get? (i + 1) =
          (readU16LE rest).get? i := rfl
      rw [e0, ih rest h2]
      have e1 : 2 * (i + 1) = 2 * i + 1 + 1 := by omega
      rw [e1]
      simp only [List.getD_cons_succ]

end FRLG

namespace FRLG

/-- C1 (amended): `LayoutTileset::get_metatile_image` routes a metatile
id below the primary metatile count to the primary tileset unchanged,
and an id in the secondary range to the secondary tileset rebased by the
fixed constant 640 rather than by the primary metatile count: the
secondary lookup succeeds exactly when 640 ≤ id and id − 640 is inside
the secondary table (below 640 the usize subtraction panics, modelled
`none`).  Every id at or beyond the total metatile count yields `none`,
and the rendered image is present exactly when the routing succeeds. -/
theorem C1_routing_amended (lt : LayoutTileset) (id : Nat) :
    (id < lt.primary.metatiles.length →
      lt.route_metatile id = lt.primary.metatiles.get? id) ∧
    (lt.primary.metatiles.length ≤ id →
      id < lt.primary.metatiles.length + lt.secondary.metatiles.length →
      lt.route_metatile id =
        if 640 ≤ id then lt.secondary.metatiles.get? (id - 640) else none) ∧
    (lt.primary.metatiles.length + lt.secondary.metatiles.length ≤ id →
      lt.get_metatile_image id = none) ∧
    (lt.get_metatile_image id).isSome = (lt.route_metatile id).isSome := by
  refine ⟨fun h => ?_, fun h1 h2 => ?_, fun h => ?_, ?_⟩
  · simp only [LayoutTileset.route_metatile, Tileset.get_metatile]
    rw [if_pos h]
  · simp only [LayoutTileset.route_metatile, Tileset.get_metatile]
    rw [if_neg (by omega), if_pos (show lt.primary.metatiles.length ≤ id ∧
      id < lt.secondary.metatiles.length + lt.primary.metatiles.length by omega)]
  · simp only [LayoutTileset.get_metatile_image, LayoutTileset.route_metatile,
      Tileset.get_metatile]
    rw [if_neg (by omega), if_neg (by omega)]
    rfl
  · cases hroute : lt.route_metatile id <;>
      simp [LayoutTileset.get_metatile_image, hroute]

/-- C1 counterexample: with one primary and one secondary metatile, the
id 1 lies in the secondary range [1, 2), so the claim as stated demands
the secondary metatile at index 1 − 1 = 0 (which exists), yet the code
computes 1 − 640 and returns nothing. -/
theorem C1_routing_counterexample :
    exLayoutTileset.primary.metatiles.length = 1 ∧
    exLayoutTileset.secondary.metatiles.length = 1 ∧
    (exLayoutTileset.secondary.get_metatile
      (1 - exLayoutTileset.primary.metatiles.length)).isSome = true ∧
    exLayoutTileset.get_metatile_image 1 = none := by
  exact ⟨rfl, rfl, rfl, rfl⟩

/-- C1 witness: the amended routing theorem applied to the concrete
example layout tileset at ids 0, 1 and 2. -/
theorem C1_routing_amended_witness :
    exLayoutTileset.route_metatile 0 = exLayoutTileset.primary.metatiles.get? 0 ∧
    exLayoutTileset.route_metatile 1 =
      (if 640 ≤ 1 then exLayoutTileset.secondary.metatiles.get? (1 - 640)
        else none) ∧
    exLayoutTileset.get_metatile_image 2 = none := by
  exact ⟨(C1_routing_amended exLayoutTileset 0).1 (by decide),
    (C1_routing_amended exLayoutTileset 1).2.1 (by decide) (by decide),
    (C1_routing_amended exLayoutTileset 2).2.2.1 (by decide)⟩

/-- C2: inside a rendered metatile, a slot whose raw tile id is below
the fixed constant 640 is rendered from the primary tileset's atlas
under the unchanged id, and a slot whose raw tile id is at least 640 is
rendered from the secondary tileset's atlas under id − 640; the boundary
is the literal 640 of the source, independent of the primary metatile
count. -/
theorem C2_tile_split_640 (lt : LayoutTileset) (mt : Metatile) (i : Nat) :
    ((mt.tiles.getD i defaultTileData).tile_id < 640 →
      lt.slotTileImage mt i =
        lt.primary.get_tile_image (mt.tiles.getD i defaultTileData).tile_id
          (mt.tiles.getD i defaultTileData).flip_vertical
          (mt.tiles.getD i defaultTileData).flip_horizontal
          (mt.tiles.getD i defaultTileData).palette_number
          lt.primary.tile_image ∧
      lt.slotGray mt i =
        lt.primary.tile_image.get_tile (mt.tiles.getD i defaultTileData).tile_id) ∧
    (640 ≤ (mt.tiles.getD i defaultTileData).tile_id →
      lt.slotTileImage mt i =
        lt.secondary.get_tile_image
          ((mt.tiles.getD i defaultTileData).tile_id - 640)
          (mt.tiles.getD i defaultTileData).flip_vertical
          (mt.tiles.getD i defaultTileData).flip_horizontal
          (mt.tiles.getD i defaultTileData).palette_number
          lt.secondary.tile_image ∧
      lt.slotGray mt i =
        lt.secondary.tile_image.get_tile
          ((mt.tiles.getD i defaultTileData).tile_id - 640)) := by
  constructor <;> intro h
  · constructor <;>
      simp only [LayoutTileset.slotTileImage, LayoutTileset.slotGray] <;>
      rw [if_pos h]
  · constructor <;>
      simp only [LayoutTileset.slotTileImage, LayoutTileset.slotGray] <;>
      rw [if_neg (by omega)]

/-- C2 witness: the split theorem applied to a slot with tile id 0
(primary) and a slot with tile id 700 (secondary, rebased to 60). -/
theorem C2_tile_split_640_witness :
    exLayoutTileset.slotTileImage exMetatile 0 =
      exLayoutTileset.primary.get_tile_image 0 false false 0
        exLayoutTileset.primary.tile_image ∧
    exLayoutTileset.slotTileImage exMetatileHi 0 =
      exLayoutTileset.secondary.get_tile_image 60 false false 0
        exLayoutTileset.secondary.tile_image := by
  exact ⟨((C2_tile_split_640 exLayoutTileset exMetatile 0).1 (by decide)).1,
    ((C2_tile_split_640 exLayoutTileset exMetatileHi 0).2 (by decide)).1⟩

/-- C3 (amended): `parse_palette` does not fail on a header mismatch:
when the three header lines are not exactly the JASC-PAL tags (or fewer
than three lines exist) it returns the untouched all-zero palette with
no error.  Only when the headers match does it fail, and then exactly
when fewer than 16 color lines follow or one of the first 16 does not
parse into exactly three byte values (the failure is a panic, modelled
`none`, not a format error). -/
theorem C3_parse_palette_amended :
    (∀ h1 h2 h3 rest,
      ¬(h1 = "JASC-PAL".toList ∧ h2 = "0100".toList ∧ h3 = "16".toList) →
      parse_palette (h1 :: h2 :: h3 :: rest) = some zeroPalette) ∧
    (∀ lines : List (List Char), lines.length < 3 →
      parse_palette lines = some zeroPalette) ∧
    (∀ rest,
      parse_palette
        ("JASC-PAL".toList :: "0100".toList :: "16".toList :: rest) = none ↔
      ¬(16 ≤ rest.length ∧ ∀ l ∈ rest.take 16, parseColorLine l ≠ none)) := by
  refine ⟨?_, ?_, ?_⟩
  · intro h1 h2 h3 rest hne
    simp only [parse_palette]
    rw [if_neg hne]
  · intro lines hlen
    rcases lines with _ | ⟨a, _ | ⟨b, _ | ⟨c, rest⟩⟩⟩
    · rfl
    · rfl
    · rfl
    · simp at hlen
      omega
  · intro rest
    simp only [parse_palette]
    split
    · rw [Option.map_eq_none', parseColors_eq_none_iff]
    · next h => exact absurd ⟨trivial, trivial, trivial⟩ h

/-- C3 counterexample: a file whose third header line is "15" does not
fail; it successfully returns the all-zero palette, contradicting the
claim that a header mismatch yields a format error and no palette. -/
theorem C3_parse_palette_counterexample :
    parse_palette ["JASC-PAL".toList, "0100".toList, "15".toList] =
      some zeroPalette := by
  rfl

/-- C3 witness: the amended theorem applied to a wrong first header, a
too-short file, a well-formed file (16 good color lines, no failure) and
a file with only 15 color lines (failure). -/
theorem C3_parse_palette_amended_witness :
    parse_palette ["XASC-PAL".toList, "0100".toList, "16".toList] =
      some zeroPalette ∧
    parse_palette ["JASC-PAL".toList] = some zeroPalette ∧
    parse_palette ("JASC-PAL".toList :: "0100".toList :: "16".toList ::
      List.replicate 16 "1 2 3".toList) ≠ none ∧
    parse_palette ("JASC-PAL".toList :: "0100".toList :: "16".toList ::
      List.replicate 15 "1 2 3".toList) = none := by
  refine ⟨C3_parse_palette_amended.1 _ _ _ [] (by decide),
    C3_parse_palette_amended.2.1 _ (by decide), ?_, ?_⟩
  · intro heq
    have h2 := (C3_parse_palette_amended.2.2
      (List.replicate 16 "1 2 3".toList)).mp heq
    apply h2
    constructor
    · decide
    · decide
  · apply (C3_parse_palette_amended.2.2 (List.replicate 15 "1 2 3".toList)).mpr
    intro hc
    have := hc.1
    simp at this

end FRLG

namespace FRLG

/-- C4: in the 16x16 metatile composite, a bottom-layer (layer 0) slot
writes every pixel of its 8x8 region opaquely (the source RGB is copied
regardless of its alpha / index), a top-layer (layer 1) source pixel
with alpha 0 leaves the underlying pixel unchanged, a rendered tile
pixel has alpha 0 exactly when its 4-bit palette index is 0, and a
metatile whose four top-layer tiles are entirely transparent composites
to exactly the bottom-layer-only image. -/
theorem C4_transparency (lt : LayoutTileset) (mt : Metatile) :
    (∀ (img : Nat → Nat → Color) (c r x y : Nat) t,
      lt.slotTileImage mt (0 * 4 + r * 2 + c) = some t →
      8 * c ≤ x → x < 8 * c + 8 → 8 * r ≤ y → y < 8 * r + 8 →
      lt.writeSlot mt img 0 c r x y =
        ((t (x - 8 * c) (y - 8 * r)).1, (t (x - 8 * c) (y - 8 * r)).2.1,
          (t (x - 8 * c) (y - 8 * r)).2.2.1)) ∧
    (∀ (img : Nat → Nat → Color) (c r x y : Nat) t,
      lt.slotTileImage mt (1 * 4 + r * 2 + c) = some t →
      8 * c ≤ x → x < 8 * c + 8 → 8 * r ≤ y → y < 8 * r + 8 →
      (t (x - 8 * c) (y - 8 * r)).2.2.2 = 0 →
      lt.writeSlot mt img 1 c r x y = img x y) ∧
    (∀ (ts : Tileset) (id : Nat) (fv fh : Bool) (pn : Nat)
        (aimg : TilesetImage) t,
      ts.get_tile_image id fv fh pn aimg = some t →
      ∃ g, aimg.get_tile id = some g ∧ ∀ c r,
        ((t c r).2.2.2 = 0 ↔
          g (if !fh then c else 7 - c) (if !fv then r else 7 - r) = 0)) ∧
    ((∀ i t, 4 ≤ i → i < 8 → lt.slotTileImage mt i = some t →
        ∀ pc pr, pc < 8 → pr < 8 → (t pc pr).2.2.2 = 0) →
      ∀ x y, lt.compositeMetatile mt x y = lt.compositeBottomOnly mt x y) := by
  refine ⟨?_, ?_, ?_, ?_⟩
  · intro img c r x y t ht h1 h2 h3 h4
    simp only [LayoutTileset.writeSlot, ht]
    rw [if_pos ⟨h1, h2, h3, h4⟩, if_neg (by simp)]
  · intro img c r x y t ht h1 h2 h3 h4 halpha
    simp only [LayoutTileset.writeSlot, ht]
    rw [if_pos ⟨h1, h2, h3, h4⟩, if_pos ⟨trivial, halpha⟩]
  · intro ts id fv fh pn aimg t ht
    simp only [Tileset.get_tile_image] at ht
    cases hg : aimg.get_tile id with
    | none =>
      rw [hg] at ht
      exact absurd ht (by simp)
    | some g =>
      rw [hg] at ht
      simp only [Option.map_some'] at ht
      injection ht with ht2
      refine ⟨g, rfl, ?_⟩
      intro c r
      rw [← ht2]
      simp only [Tileset.renderTilePixel]
      by_cases hz : g (if !fh then c else 7 - c) (if !fv then r else 7 - r) = 0 <;>
        simp [hz]
  · intro H x y
    have key : ∀ (img : Nat → Nat → Color) c r, c < 2 → r < 2 →
        lt.writeSlot mt img 1 c r x y = img x y := by
      intro img c r hc hr
      cases hslot : lt.slotTileImage mt (1 * 4 + r * 2 + c) with
      | none => simp only [LayoutTileset.writeSlot, hslot]
      | some t =>
        simp only [LayoutTileset.writeSlot, hslot]
        by_cases hreg : 8 * c ≤ x ∧ x < 8 * c + 8 ∧ 8 * r ≤ y ∧ y < 8 * r + 8
        · have halpha := H (1 * 4 + r * 2 + c) t (by omega) (by omega) hslot
            (x - 8 * c) (y - 8 * r) (by omega) (by omega)
          rw [if_pos hreg, if_pos ⟨trivial, halpha⟩]
        · rw [if_neg hreg]
    simp only [LayoutTileset.compositeMetatile, LayoutTileset.compositeBottomOnly,
      slotOrder, List.foldl]
    rw [key _ 1 1 (by omega) (by omega), key _ 1 0 (by omega) (by omega),
      key _ 0 1 (by omega) (by omega), key _ 0 0 (by omega) (by omega)]

/-- C4 witness: the transparency theorem applied to the concrete example
layout tileset and a metatile whose top tiles satisfy the transparency
hypothesis, together with direct evaluations of a bottom write (opaque,
black from the zero palette) and a top write (skipped, leaving the
background). -/
theorem C4_transparency_witness :
    exLayoutTileset.compositeMetatile exMetatileOob 0 0 =
      exLayoutTileset.compositeBottomOnly exMetatileOob 0 0 ∧
    exLayoutTileset.writeSlot exMetatile (fun _ _ => (9, 9, 9)) 0 0 0 0 0 =
      (0, 0, 0) ∧
    exLayoutTileset.writeSlot exMetatile (fun _ _ => (9, 9, 9)) 1 0 0 0 0 =
      (9, 9, 9) := by
  refine ⟨?_, by rfl, by rfl⟩
  apply (C4_transparency exLayoutTileset exMetatileOob).2.2.2
  intro i t h4 h8 hslot pc pr hpc hpr
  have hi : i = 4 ∨ i = 5 ∨ i = 6 ∨ i = 7 := by omega
  rcases hi with rfl | rfl | rfl | rfl <;>
    exact Option.noConfusion
      (show (none : Option (Nat → Nat → Rgba)) = some t from hslot)

/-- C5: decoding a 16-bit word into a TileRef yields the low 10 bits as
the tile id, bit 10 as flip_horizontal, bit 11 as flip_vertical and bits
12-15 as the palette number, and re-packing the four fields recovers the
word exactly for every 16-bit input. -/
theorem C5_tileref_roundtrip (v : Nat) (hv : v < 65536) :
    (TileData.fromWord v).tile_id = v % 1024 ∧
    (TileData.fromWord v).flip_horizontal = v.testBit 10 ∧
    (TileData.fromWord v).flip_vertical = v.testBit 11 ∧
    (TileData.fromWord v).palette_number = v / 4096 % 16 ∧
    TileData.encodeWord (TileData.fromWord v) = v := by
  refine ⟨?_, ?_, ?_, ?_, ?_⟩
  · simp [TileData.fromWord]
    rw [show (0x3ff : Nat) = 1023 from rfl, and_1023]
  · simp only [TileData.fromWord]
    rw [bit10_bool, testBit_10]
  · simp only [TileData.fromWord]
    rw [bit11_bool, testBit_11]
  · simp only [TileData.fromWord]
    rw [and_f000_shr]
  · simp only [TileData.encodeWord, TileData.fromWord, bit10_bool, bit11_bool]
    rw [show (0x3ff : Nat) = 1023 from rfl, and_1023, and_f000_shr]
    rcases Nat.mod_two_eq_zero_or_one (v / 1024) with h | h <;>
      rcases Nat.mod_two_eq_zero_or_one (v / 2048) with h2 | h2 <;>
      simp [h, h2] <;> omega

/-- C5 witness: the round-trip theorem applied to the word 0xABCD. -/
theorem C5_tileref_roundtrip_witness :
    TileData.encodeWord (TileData.fromWord 0xABCD) = 0xABCD ∧
    (TileData.fromWord 0xABCD).tile_id = 0xABCD % 1024 := by
  have h := C5_tileref_roundtrip 0xABCD (by decide)
  exact ⟨h.2.2.2.2, h.1⟩

/-- C6: a tile rendered with flip_horizontal reads, at each column c and
row r, exactly the pixel the unflipped rendering produces at column
7 − c and row r, and flip_vertical likewise reverses the row order;
this holds for every atlas, palette index and tile id. -/
theorem C6_flip_reversal (ts : Tileset) (id pn : Nat) (img : TilesetImage)
    (fv fh : Bool) (c r : Nat) :
    ((ts.get_tile_image id fv true pn img).map (fun t => t c r) =
      (ts.get_tile_image id fv false pn img).map (fun t => t (7 - c) r)) ∧
    ((ts.get_tile_image id true fh pn img).map (fun t => t c r) =
      (ts.get_tile_image id false fh pn img).map (fun t => t c (7 - r))) := by
  cases h : img.get_tile id <;>
    simp [Tileset.get_tile_image, h, Tileset.renderTilePixel]

end FRLG

namespace FRLG

/-- C7: the atlas tile lookup returns absent exactly for tile ids at or
beyond tile_width * tile_height (in particular absent at the product and
present at the product minus one for a nonempty atlas), and each pixel
of a present tile is read from packed-buffer byte offset
(pixel_y * atlas_width_px + pixel_x) / 2, even columns taking the high
nibble and odd columns the low nibble. -/
theorem C7_atlas_get_tile (a : TilesetImage) :
    (∀ id, a.get_tile id = none ↔ a.tile_width * a.tile_height ≤ id) ∧
    (0 < a.tile_width * a.tile_height →
      (a.get_tile (a.tile_width * a.tile_height - 1)).isSome = true) ∧
    (∀ id g, a.get_tile id = some g → ∀ c r, c < 8 → r < 8 →
      g c r = if c % 2 = 0
        then a.tileset_data.getD
          (((id / a.tile_width * 8 + r) * (a.tile_width * 8) +
            (id % a.tile_width * 8 + c)) / 2) 0 / 16
        else a.tileset_data.getD
          (((id / a.tile_width * 8 + r) * (a.tile_width * 8) +
            (id % a.tile_width * 8 + c)) / 2) 0 % 16) := by
  refine ⟨?_, ?_, ?_⟩
  · intro id
    simp only [TilesetImage.get_tile]
    split <;> simp <;> omega
  · intro h
    simp only [TilesetImage.get_tile]
    rw [if_pos (by omega)]
    rfl
  · intro id g hg c r hc hr
    simp only [TilesetImage.get_tile] at hg
    split at hg
    · injection hg with hg'
      simp only [← hg']
      by_cases h : c % 2 = 0
      · rw [if_pos h, if_pos h, shr_4]
      · rw [if_neg h, if_neg h, and_15]
    · exact absurd hg (by simp)

/-- C7 witness: the atlas theorem applied to the concrete 2x1 atlas:
tile 2 is absent, tile 1 is present, and two pixels of tile 1 evaluate
through the packed-offset formula (high nibble at even column 0, low
nibble at odd column 1 of byte 4). -/
theorem C7_atlas_get_tile_witness :
    exAtlas.get_tile 2 = none ∧
    (exAtlas.get_tile 1).isSome = true ∧
    (exAtlas.get_tile 1).map (fun g => g 0 0) = some 0 ∧
    (exAtlas.get_tile 1).map (fun g => g 1 0) = some 4 := by
  have hthm := C7_atlas_get_tile exAtlas
  refine ⟨(hthm.1 2).mpr (by decide), hthm.2.1 (by decide), ?_, ?_⟩
  · rcases h : exAtlas.get_tile 1 with _ | g
    · exact absurd ((hthm.1 1).mp h) (by decide)
    · simp only [Option.map_some']
      have h2 := hthm.2.2 1 g h 0 0 (by omega) (by omega)
      rw [h2]
      rfl
  · rcases h : exAtlas.get_tile 1 with _ | g
    · exact absurd ((hthm.1 1).mp h) (by decide)
    · simp only [Option.map_some']
      have h2 := hthm.2.2 1 g h 1 0 (by omega) (by omega)
      rw [h2]
      rfl

/-- C8: with a caller-supplied width and height consistent with the cell
count, `Layout::get_metatile` is absent exactly outside the declared
bounds and otherwise returns the cell at row-major index
row * width + col, which always exists; the per-cell decoding takes bits
0-9 as the metatile id, bits 10-11 as collision and bits 12-15 as
elevation, and the underlying file decoding reads consecutive
little-endian 16-bit words. -/
theorem C8_map_get_cell (l : Layout)
    (hlen : l.map_data.metatiles.length = l.width * l.height) (row col : Nat) :
    (l.get_metatile row col = none ↔ (l.height ≤ row ∨ l.width ≤ col)) ∧
    (row < l.height → col < l.width →
      l.get_metatile row col = l.map_data.metatiles.get? (row * l.width + col) ∧
      (l.map_data.metatiles.get? (row * l.width + col)).isSome = true) ∧
    (∀ v, MapMetatileData.fromWord v =
      ⟨v % 1024, v / 1024 % 4, v / 4096 % 16⟩) ∧
    (∀ bytes : List Nat, ∀ i, 2 * i + 1 < bytes.length →
      (readU16LE bytes).get? i =
        some (bytes.getD (2 * i) 0 + 256 * bytes.getD (2 * i + 1) 0)) := by
  have hidx : row < l.height → col < l.width →
      row * l.width + col < l.map_data.metatiles.length := by
    intro h1 h2
    rw [hlen]
    calc row * l.width + col < row * l.width + l.width := by omega
    _ = (row + 1) * l.width := by ring
    _ ≤ l.height * l.width := Nat.mul_le_mul_right _ (by omega)
    _ = l.width * l.height := Nat.mul_comm _ _
  refine ⟨?_, ?_, ?_, ?_⟩
  · by_cases hb : l.height ≤ row ∨ l.width ≤ col
    · simp only [Layout.get_metatile, Layout.tile_idx, if_pos hb]
      exact ⟨fun _ => hb, fun _ => rfl⟩
    · simp only [Layout.get_metatile, Layout.tile_idx, if_neg hb]
      push_neg at hb
      have := hidx hb.1 hb.2
      constructor
      · intro hnone
        have hnone2 : l.map_data.metatiles.get? (row * l.width + col) = none :=
          hnone
        rw [List.get?_eq_none] at hnone2
        omega
      · intro hcontra
        exact absurd hcontra (by push_neg; exact hb)
  · intro h1 h2
    have hb : ¬ (row ≥ l.height ∨ col ≥ l.width) := by push_neg; exact ⟨h1, h2⟩
    simp only [Layout.get_metatile, Layout.tile_idx, if_neg hb]
    refine ⟨rfl, ?_⟩
    have := hidx h1 h2
    rcases h5 : l.map_data.metatiles.get? (row * l.width + col) with _ | x
    · rw [List.get?_eq_none] at h5
      omega
    · rfl
  · intro v
    simp only [MapMetatileData.fromWord, MapMetatileData.mk.injEq]
    exact ⟨and_1023 v, and_c00_shr v, and_f000_shr v⟩
  · exact readU16LE_get?

/-- C8 witness: loading the 2x2 example map (cells 0x0000..0x0003 little
endian, two zero border cells) and applying the theorem: the cell at
row 1, col 1 has metatile id 3, and row 2, col 0 is absent. -/
theorem C8_map_get_cell_witness :
    Layout.load 2 2 [0, 0, 1, 0, 2, 0, 3, 0] [0, 0, 0, 0] =
      .ok ⟨2, 2, ⟨[⟨0, 0, 0⟩, ⟨1, 0, 0⟩, ⟨2, 0, 0⟩, ⟨3, 0, 0⟩],
        [⟨0, 0, 0⟩, ⟨0, 0, 0⟩]⟩⟩ ∧
    (⟨2, 2, ⟨[⟨0, 0, 0⟩, ⟨1, 0, 0⟩, ⟨2, 0, 0⟩, ⟨3, 0, 0⟩],
        [⟨0, 0, 0⟩, ⟨0, 0, 0⟩]⟩⟩ : Layout).get_metatile 1 1 = some ⟨3, 0, 0⟩ ∧
    (⟨2, 2, ⟨[⟨0, 0, 0⟩, ⟨1, 0, 0⟩, ⟨2, 0, 0⟩, ⟨3, 0, 0⟩],
        [⟨0, 0, 0⟩, ⟨0, 0, 0⟩]⟩⟩ : Layout).get_metatile 2 0 = none := by
  refine ⟨rfl, ?_, ?_⟩
  · exact (((C8_map_get_cell _ (by decide) 1 1).2.1 (by decide)
      (by decide)).1).trans rfl
  · exact (C8_map_get_cell _ (by decide) 2 0).1.mpr (Or.inl (by decide))

/-- C9: when both files consist of whole records, parsing the metatile
table fails whenever the attribute file holds fewer 4-byte records than
the metatile file holds 16-byte records, and succeeds whenever it holds
at least as many, the excess attribute records being ignored and the
result holding exactly one metatile per 16 metatile bytes. -/
theorem C9_attr_shortage (meta attrs : List Nat)
    (hm : meta.length % 16 = 0) (ha : attrs.length % 4 = 0) :
    (attrs.length / 4 < meta.length / 16 →
      parse_metatile_files meta attrs = .error ()) ∧
    (meta.length / 16 ≤ attrs.length / 4 →
      ∃ mts, parse_metatile_files meta attrs = .ok mts ∧
        mts.length = meta.length / 16) := by
  have h := parseMetatileChunks_spec meta attrs hm ha
  simp only [parse_metatile_files, if_neg (by omega : ¬ meta.length % 16 ≠ 0),
    if_neg (by omega : ¬ attrs.length % 4 ≠ 0)]
  exact h

/-- C9 witness: 32 metatile bytes (2 records) with 4 attribute bytes
(1 record) parse to an error via the theorem, while 12 attribute bytes
(3 records, one in excess) parse to exactly two metatiles. -/
theorem C9_attr_shortage_witness :
    parse_metatile_files (List.replicate 32 0) (List.replicate 4 0) =
      .error () ∧
    parse_metatile_files (List.replicate 32 0) (List.replicate 12 0) =
      .ok [⟨List.replicate 8 defaultTileData, ⟨LayerType.MiddleTop⟩⟩,
        ⟨List.replicate 8 defaultTileData, ⟨LayerType.MiddleTop⟩⟩] := by
  constructor
  · exact (C9_attr_shortage (List.replicate 32 0) (List.replicate 4 0)
      (by decide) (by decide)).1 (by decide)
  · rfl

/-- C10: every pixel of a tile returned by the atlas lookup is a 4-bit
value below 16 (given that the backing buffer holds bytes), so looking
that value up in any 16-entry palette always succeeds, both directly and
through the palette list indexing of the renderer. -/
theorem C10_nibble_safety (a : TilesetImage) (id : Nat) (g : Nat → Nat → Nat)
    (hbytes : ∀ b ∈ a.tileset_data, b < 256)
    (hg : a.get_tile id = some g) (c r : Nat) :
    g c r < 16 ∧
    (∀ p : Palette, p.inner.length = 16 → (p.get (g c r)).isSome = true) ∧
    (∀ (ts : Tileset) (pn : Nat), (∀ p ∈ ts.palettes, p.inner.length = 16) →
      ((ts.palettes.getD pn zeroPalette).get (g c r)).isSome = true) := by
  have hlt : g c r < 16 := by
    simp only [TilesetImage.get_tile] at hg
    split at hg
    · injection hg with hg'
      simp only [← hg']
      have hb := getD_lt_256 a.tileset_data hbytes
        (((id / a.tile_width * 8 + r) * (a.tile_width * 8) +
          (id % a.tile_width * 8 + c)) / 2)
      by_cases h : c % 2 = 0
      · rw [if_pos h, shr_4]
        omega
      · rw [if_neg h, and_15]
        omega
    · exact absurd hg (by simp)
  have key : ∀ p : Palette, p.inner.length = 16 →
      (p.get (g c r)).isSome = true := by
    intro p hp
    simp only [Palette.get]
    rcases h5 : p.inner.get? (g c r) with _ | x
    · rw [List.get?_eq_none] at h5
      omega
    · rfl
  refine ⟨hlt, key, ?_⟩
  intro ts pn hts
  apply key
  have e : ts.palettes.getD pn zeroPalette =
      (ts.palettes.get? pn).getD zeroPalette := rfl
  rw [e]
  rcases h2 : ts.palettes.get? pn with _ | p
  · simp [zeroPalette]
  · simp only [Option.getD_some]
    exact hts _ (List.get?_mem h2)

/-- C10 witness: the nibble-safety theorem applied to the concrete 2x1
atlas at tile 1, pixel (3, 3): the pixel is below 16 and its lookup in
the 16-entry zero palette succeeds. -/
theorem C10_nibble_safety_witness :
    ((exAtlas.get_tile 1).map (fun g => g 3 3)).getD 99 < 16 ∧
    ((exAtlas.get_tile 1).map
      (fun g => (zeroPalette.get (g 3 3)).isSome)).getD false = true := by
  rcases h : exAtlas.get_tile 1 with _ | g
  · simp [TilesetImage.get_tile, exAtlas] at h
  · obtain ⟨h1, h2, h3⟩ := C10_nibble_safety exAtlas 1 g (by decide) h 3 3
    simp only [Option.map_some', Option.getD_some]
    exact ⟨h1, h2 zeroPalette (by decide)⟩

end FRLG
